import Mathlib

set_option maxRecDepth 100000

/-!
Shallow embedding of the `migrate` Go library (package `migrate`,
`internal/schema`, `types`): the checksum-chaining algorithm and the
migration-application engine (`Migrator.ApplyContext`,
`Migrator.applyMigrations`, `Migrator.checksumHistory`,
`Migrator.validateChecksum`, `normalizedSha1`, `normalize`).

Database effects are modelled by an explicit state (`DBState`) holding the
singleton schema-version row and a log of executed migration scripts; script
execution success is an oracle `execOk : String → Bool`, and a possible
rollback failure is an oracle `rollbackErr : Option String`.  The dialect
metadata operations (create version table, read current version, upsert
version) are modelled as always succeeding, matching a healthy database.
-/

namespace Migrate

/-- Truncation to a 32-bit machine word, as Go `uint32` arithmetic does. -/
def w32 (x : Nat) : Nat := x % 4294967296

/-- 32-bit left rotation by `n` (Go `bits.RotateLeft32`, as used inside `crypto/sha1`). -/
def rotl (n x : Nat) : Nat := w32 ((x <<< n) ||| (x >>> (32 - n)))

/-- SHA-1 message padding (FIPS 180): append `0x80`, zero bytes up to 56 mod 64,
then the 64-bit big-endian bit length. -/
def sha1Pad (msg : List Nat) : List Nat :=
  let len := msg.length
  let bitLen := 8 * len
  let padZeros := (55 + 64 - len % 64) % 64
  msg ++ [0x80] ++ List.replicate padZeros 0 ++
    [(bitLen >>> 56) % 256, (bitLen >>> 48) % 256, (bitLen >>> 40) % 256,
     (bitLen >>> 32) % 256, (bitLen >>> 24) % 256, (bitLen >>> 16) % 256,
     (bitLen >>> 8) % 256, bitLen % 256]

/-- Group bytes into big-endian 32-bit words. -/
def bytesToWords : List Nat → List Nat
  | b0 :: b1 :: b2 :: b3 :: rest =>
      ((((b0 <<< 8) ||| b1) <<< 8 ||| b2) <<< 8 ||| b3) :: bytesToWords rest
  | _ => []

/-- Split a word list into 16-word blocks (structural recursion on a fuel
bound so the definition reduces by iota; each step consumes at least one
element, so `l.length` steps always suffice). -/
def chunks16Fuel : Nat → List Nat → List (List Nat)
  | 0, _ => []
  | _, [] => []
  | fuel + 1, b :: rest => (b :: rest).take 16 :: chunks16Fuel fuel ((b :: rest).drop 16)

/-- Split a word list into 16-word blocks. -/
def chunks16 (l : List Nat) : List (List Nat) := chunks16Fuel l.length l

/-- Extend a 16-word block to the 80-word SHA-1 message schedule. -/
def extendWords (ws : Array Nat) : Array Nat :=
  (List.range 64).foldl (fun a j =>
    let i := j + 16
    a.push (rotl 1 ((a.getD (i - 3) 0) ^^^ (a.getD (i - 8) 0) ^^^
                    (a.getD (i - 14) 0) ^^^ (a.getD (i - 16) 0)))) ws

/-- One SHA-1 compression round at position `t` with schedule word `w`. -/
def sha1Round (st : Nat × Nat × Nat × Nat × Nat) (t w : Nat) :
    Nat × Nat × Nat × Nat × Nat :=
  let (a, b, c, d, e) := st
  let f :=
    if t < 20 then (b &&& c) ||| ((b ^^^ 4294967295) &&& d)
    else if t < 40 then b ^^^ c ^^^ d
    else if t < 60 then (b &&& c) ||| (b &&& d) ||| (c &&& d)
    else b ^^^ c ^^^ d
  let k :=
    if t < 20 then 0x5A827999
    else if t < 40 then 0x6ED9EBA1
    else if t < 60 then 0x8F1BBCDC
    else 0xCA62C1D6
  let temp := w32 (rotl 5 a + f + e + k + w)
  (temp, a, rotl 30 b, c, d)

/-- Process one 16-word chunk, updating the five hash words. -/
def sha1Chunk (h : Nat × Nat × Nat × Nat × Nat) (chunk : List Nat) :
    Nat × Nat × Nat × Nat × Nat :=
  let ws := extendWords (Array.mk chunk)
  let (h0, h1, h2, h3, h4) := h
  let (a, b, c, d, e) :=
    (List.range 80).foldl (fun st t => sha1Round st t (ws.getD t 0)) (h0, h1, h2, h3, h4)
  (w32 (h0 + a), w32 (h1 + b), w32 (h2 + c), w32 (h3 + d), w32 (h4 + e))

/-- SHA-1 of a byte sequence, as the five 32-bit hash words (Go `sha1.Sum`). -/
def sha1Words (msg : List Nat) : Nat × Nat × Nat × Nat × Nat :=
  (chunks16 (bytesToWords (sha1Pad msg))).foldl sha1Chunk
    (0x67452301, 0xEFCDAB89, 0x98BADCFE, 0x10325476, 0xC3D2E1F0)

/-- Lower-case hexadecimal digit. -/
def hexDigit (n : Nat) : Char :=
  if n < 10 then Char.ofNat (48 + n) else Char.ofNat (87 + n)

/-- Eight lower-case hex digits of a 32-bit word, most significant first. -/
def toHex8 (x : Nat) : List Char :=
  [hexDigit ((x >>> 28) % 16), hexDigit ((x >>> 24) % 16), hexDigit ((x >>> 20) % 16),
   hexDigit ((x >>> 16) % 16), hexDigit ((x >>> 12) % 16), hexDigit ((x >>> 8) % 16),
   hexDigit ((x >>> 4) % 16), hexDigit (x % 16)]

/-- SHA-1 hex digest of a byte sequence (Go `hex.EncodeToString(sha1.Sum(b))`). -/
def sha1Hex (msg : List Nat) : String :=
  let (h0, h1, h2, h3, h4) := sha1Words msg
  ⟨toHex8 h0 ++ toHex8 h1 ++ toHex8 h2 ++ toHex8 h3 ++ toHex8 h4⟩

/-- UTF-8 encoding of one code point, as Go produces for `[]byte(string)`. -/
def utf8Bytes (c : Nat) : List Nat :=
  if c < 0x80 then [c]
  else if c < 0x800 then [0xC0 ||| (c >>> 6), 0x80 ||| (c &&& 0x3F)]
  else if c < 0x10000 then
    [0xE0 ||| (c >>> 12), 0x80 ||| ((c >>> 6) &&& 0x3F), 0x80 ||| (c &&& 0x3F)]
  else
    [0xF0 ||| (c >>> 18), 0x80 ||| ((c >>> 12) &&& 0x3F),
     0x80 ||| ((c >>> 6) &&& 0x3F), 0x80 ||| (c &&& 0x3F)]

/-- UTF-8 bytes of a string (Go `[]byte(s)`). -/
def stringToBytes (s : String) : List Nat :=
  s.data.foldr (fun c acc => utf8Bytes c.toNat ++ acc) []

/-- Whitespace test matching Go `unicode.IsSpace`: the Unicode `White_Space`
property (tab, newline, vertical tab, form feed, carriage return, space,
NEL, NBSP, and the non-Latin-1 White_Space code points). -/
def goIsSpace (c : Char) : Bool :=
  let n := c.toNat
  n == 9 || n == 10 || n == 11 || n == 12 || n == 13 || n == 32 ||
  n == 0x85 || n == 0xA0 || n == 0x1680 ||
  (0x2000 ≤ n && n ≤ 0x200A) ||
  n == 0x2028 || n == 0x2029 || n == 0x202F || n == 0x205F || n == 0x3000

/-- Code `normalize` (migrate.go): remove every whitespace rune
(`strings.Map` returning -1 on `unicode.IsSpace`). -/
def normalize (s : String) : String :=
  ⟨s.data.filter (fun c => !goIsSpace c)⟩

/-- Code `normalizedSha1` (migrate.go): SHA-1 hex digest of the
whitespace-normalized script text; the default `Checksum` function. -/
def normalizedSha1 (query : String) : String :=
  sha1Hex (stringToBytes (normalize query))

/-- Code `types.SchemaVersion`: the singleton persisted version row.  The
constant row id is not modelled (the dialect pins it to 0); `version` is a
count of applied migrations, `checksum` the cumulative chain digest. -/
structure SchemaVersion where
  version : Nat
  checksum : String
  deriving DecidableEq, Repr

/-- Explicit database state: the schema-version row (the dialect's
`CreateVersionTableQuery` guarantees it exists, initialized to version 0 with
empty checksum on a fresh database) and the ordered log of migration scripts
whose execution has taken effect. -/
structure DBState where
  schema : SchemaVersion
  executed : List String
  deriving DecidableEq, Repr

/-- State of a fresh database after the version table is ensured. -/
def freshDB : DBState := ⟨⟨0, ""⟩, []⟩

/-- Errors `ApplyContext` can return, mirroring the `errf` messages in
migrate.go.  `nonTransactional` is the wrapper at the `!m.withTx` return;
`rollbackFailed` models `errf("rollback: %v", errors.Join(err2, err))`,
carrying the rollback failure message and the original error. -/
inductive MigrateError where
  | mismatchedChecksums (expected found : Nat)
  | versionOverrun (dbVersion available : Nat)
  | integrityError (runtime dbChecksum : String)
  | executionError (script : Nat)
  | nonTransactional (e : MigrateError)
  | rollbackFailed (rollbackMsg : String) (orig : MigrateError)
  deriving DecidableEq, Repr

/-- Code `Migrator` configuration fields (the `*sql.DB` handle and dialect are
replaced by the explicit `DBState` and oracles passed to `ApplyContext`). -/
structure Migrator where
  migrationFilter : Nat → Bool
  checksum : String → String
  withChecksumValidation : Bool
  withTx : Bool
  reapplyAll : Bool

/-- Code `New` with no options: accept-all filter, `normalizedSha1` digest,
validation on, transactions on, full reapply off. -/
def Migrator.new : Migrator :=
  { migrationFilter := fun _ => true
    checksum := normalizedSha1
    withChecksumValidation := true
    withTx := true
    reapplyAll := false }

/-- Code `WithChecksum` option applied to a migrator. -/
def WithChecksum (fn : String → String) (m : Migrator) : Migrator :=
  { m with checksum := fn }

/-- Code `WithTransaction` option applied to a migrator. -/
def WithTransaction (enabled : Bool) (m : Migrator) : Migrator :=
  { m with withTx := enabled }

/-- Code `WithChecksumValidation` option applied to a migrator. -/
def WithChecksumValidation (enabled : Bool) (m : Migrator) : Migrator :=
  { m with withChecksumValidation := enabled }

/-- Code `WithFilter` option applied to a migrator. -/
def WithFilter (fn : Nat → Bool) (m : Migrator) : Migrator :=
  { m with migrationFilter := fn }

/-- Code `WithReapplyAll` option applied to a migrator. -/
def WithReapplyAll (enabled : Bool) (m : Migrator) : Migrator :=
  { m with reapplyAll := enabled }

/-- Tail of `Migrator.checksumHistory`: given the previous chain entry,
produce the remaining entries, one per script
(`history[i+1] = checksum(history[i] + checksum(mig))`). -/
def checksumChainFrom (cs : String → String) (prev : String) :
    List String → List String
  | [] => []
  | mig :: rest =>
      let next := cs (prev ++ cs mig)
      next :: checksumChainFrom cs next rest

/-- Code `Migrator.checksumHistory` (migrate.go): `history[0] = ""` and
`history[i+1] = m.checksum(history[i] + m.checksum(migrations[i]))`. -/
def Migrator.checksumHistory (m : Migrator) (migrations : List String) :
    List String :=
  "" :: checksumChainFrom m.checksum "" migrations

/-- Code `Migrator.validateChecksum` (migrate.go): skip when validation is
disabled or the stored version is 0; otherwise compare the stored checksum
with `runtimeChecksum[schema.Version]`. -/
def Migrator.validateChecksum (m : Migrator) (schema : SchemaVersion)
    (runtimeChecksum : List String) : Option MigrateError :=
  if m.withChecksumValidation = false then none
  else if schema.version = 0 then none
  else if schema.checksum ≠ runtimeChecksum.getD schema.version "" then
    some (.integrityError (runtimeChecksum.getD schema.version "") schema.checksum)
  else none

/-- Loop body of `Migrator.applyMigrations`: walk scripts starting at index
`i`, skipping those rejected by the 1-based filter; otherwise
`applyMigration` executes the script and `schemaops.SaveVersion` upserts
`SchemaVersion{Version: i+1, Checksum: checksums[i+1]}`; the first execution
failure aborts with the applied count so far. -/
def applyLoop (m : Migrator) (execOk : String → Bool) (checksums : List String) :
    List String → Nat → DBState → Nat → Nat × DBState × Option MigrateError
  | [], _, st, n => (n, st, none)
  | mig :: rest, i, st, n =>
    if m.migrationFilter (i + 1) = false then
      applyLoop m execOk checksums rest (i + 1) st n
    else if execOk mig then
      applyLoop m execOk checksums rest (i + 1)
        ⟨⟨i + 1, checksums.getD (i + 1) ""⟩, st.executed ++ [mig]⟩ (n + 1)
    else
      (n, st, some (.executionError (i + 1)))

/-- Code `Migrator.applyMigrations` (migrate.go): guard the checksum count,
choose the start index (`current`, or 0 under full reapply), then run the
loop over the remaining scripts. -/
def Migrator.applyMigrations (m : Migrator) (execOk : String → Bool)
    (st : DBState) (current : Nat) (migrations checksums : List String) :
    Nat × DBState × Option MigrateError :=
  if migrations.length + 1 ≠ checksums.length then
    (0, st, some (.mismatchedChecksums migrations.length checksums.length))
  else
    let start := if m.reapplyAll then 0 else current
    applyLoop m execOk checksums (migrations.drop start) start st 0

/-- Code `Migrator.ApplyContext` (migrate.go) on a `StringMigrations` source
(whose `List()` returns the given scripts without error) over a database
whose metadata operations succeed: version-overrun check, checksum chain,
integrity validation, up-to-date short-circuit, then the transactional or
non-transactional apply.  In transactional mode a failing batch restores the
initial state (rollback); `rollbackErr = some msg` makes the rollback itself
fail with that message. -/
def Migrator.ApplyContext (m : Migrator) (execOk : String → Bool)
    (rollbackErr : Option String) (migrations : List String) (st : DBState) :
    Nat × DBState × Option MigrateError :=
  if migrations.length < st.schema.version then
    (0, st, some (.versionOverrun st.schema.version migrations.length))
  else
    let runtimeChecksum := m.checksumHistory migrations
    match m.validateChecksum st.schema runtimeChecksum with
    | some e => (0, st, some e)
    | none =>
      if m.reapplyAll = false ∧ migrations.length ≤ st.schema.version then
        (0, st, none)
      else if m.withTx = false then
        match m.applyMigrations execOk st st.schema.version migrations runtimeChecksum with
        | (n, st', some e) => (n, st', some (.nonTransactional e))
        | (n, st', none) => (n, st', none)
      else
        match m.applyMigrations execOk st st.schema.version migrations runtimeChecksum with
        | (_, _, some e) =>
          match rollbackErr with
          | some msg => (0, st, some (.rollbackFailed msg e))
          | none => (0, st, some e)
        | (n, st', none) => (n, st', none)

/-! ### Supporting lemmas -/

theorem getD_drop (l : List String) (s q : Nat) (d : String) :
    (l.drop s).getD q d = l.getD (s + q) d := by
  induction l generalizing s with
  | nil => simp [List.getD]
  | cons a t ih =>
    cases s with
    | zero => simp
    | succ s' =>
      have h1 : s' + 1 + q = s' + q + 1 := by omega
      simp only [List.drop_succ_cons, h1, List.getD_cons_succ]
      exact ih s'

theorem chainFrom_length (cs : String → String) (p : String) (l : List String) :
    (checksumChainFrom cs p l).length = l.length := by
  induction l generalizing p with
  | nil => rfl
  | cons mig rest ih => simp [checksumChainFrom, ih]

theorem checksumHistory_length (m : Migrator) (migs : List String) :
    (m.checksumHistory migs).length = migs.length + 1 := by
  simp [Migrator.checksumHistory, chainFrom_length]

theorem chain_getD_succ (cs : String → String) (p : String) (l : List String)
    (i : Nat) (h : i < l.length) :
    (p :: checksumChainFrom cs p l).getD (i + 1) "" =
      cs ((p :: checksumChainFrom cs p l).getD i "" ++ cs (l.getD i "")) := by
  induction l generalizing p i with
  | nil => simp at h
  | cons mig rest ih =>
    cases i with
    | zero => rfl
    | succ j =>
      have hj : j < rest.length := by simpa using Nat.lt_of_succ_lt_succ h
      simpa [checksumChainFrom, List.getD_cons_succ] using ih (cs (p ++ cs mig)) j hj

theorem chainFrom_congr (cs : String → String) (p : String) :
    ∀ (ss ts : List String), ss.length = ts.length →
    (∀ i, i < ss.length → cs (ss.getD i "") = cs (ts.getD i "")) →
    checksumChainFrom cs p ss = checksumChainFrom cs p ts := by
  intro ss
  induction ss generalizing p with
  | nil =>
    intro ts hlen _
    cases ts with
    | nil => rfl
    | cons b tb => simp at hlen
  | cons a ta ih =>
    intro ts hlen hdig
    cases ts with
    | nil => simp at hlen
    | cons b tb =>
      have h0 : cs a = cs b := by simpa using hdig 0 (by simp)
      have hlen' : ta.length = tb.length := by simpa using hlen
      have hdig' : ∀ i, i < ta.length → cs (ta.getD i "") = cs (tb.getD i "") := by
        intro i hi
        simpa using hdig (i + 1) (by simpa using Nat.succ_lt_succ hi)
      simp only [checksumChainFrom, h0]
      exact congrArg (List.cons _) (ih _ tb hlen' hdig')

theorem applyLoop_first_fail (m : Migrator) (execOk : String → Bool)
    (checksums : List String) :
    ∀ (l : List String) (i : Nat) (st : DBState) (n p : Nat),
    p < l.length →
    m.migrationFilter (i + p + 1) = true →
    execOk (l.getD p "") = false →
    (∀ q, q < p → m.migrationFilter (i + q + 1) = true →
      execOk (l.getD q "") = true) →
    ∃ k st', applyLoop m execOk checksums l i st n =
      (k, st', some (.executionError (i + p + 1))) := by
  intro l
  induction l with
  | nil => intro i st n p hp; simp at hp
  | cons mig rest ih =>
    intro i st n p hp hsel hfail hbefore
    cases p with
    | zero =>
      have hf : execOk mig = false := by simpa using hfail
      have hs : m.migrationFilter (i + 1) = true := by simpa using hsel
      refine ⟨n, st, ?_⟩
      simp [applyLoop, hs, hf]
    | succ q =>
      have hq_len : q < rest.length := by simpa using Nat.lt_of_succ_lt_succ hp
      have hsel' : m.migrationFilter (i + 1 + q + 1) = true := by
        have h2 : i + 1 + q + 1 = i + (q + 1) + 1 := by omega
        rw [h2]; exact hsel
      have hfail' : execOk (rest.getD q "") = false := by simpa using hfail
      have hbefore' : ∀ r, r < q → m.migrationFilter (i + 1 + r + 1) = true →
          execOk (rest.getD r "") = true := by
        intro r hr hfr
        have h2 : i + 1 + r + 1 = i + (r + 1) + 1 := by omega
        rw [h2] at hfr
        simpa using hbefore (r + 1) (Nat.succ_lt_succ hr) hfr
      have harith : i + 1 + q + 1 = i + (q + 1) + 1 := by omega
      by_cases hfil : m.migrationFilter (i + 1) = false
      · obtain ⟨k, st', heq⟩ := ih (i + 1) st n q hq_len hsel' hfail' hbefore'
        refine ⟨k, st', ?_⟩
        rw [harith] at heq
        simpa [applyLoop, hfil] using heq
      · have hft : m.migrationFilter (i + 1) = true := by
          cases h : m.migrationFilter (i + 1) with
          | false => exact absurd h hfil
          | true => rfl
        have hok0 : execOk mig = true := by
          simpa using hbefore 0 (Nat.succ_pos q) (by simpa using hft)
        obtain ⟨k, st', heq⟩ := ih (i + 1)
          ⟨⟨i + 1, checksums.getD (i + 1) ""⟩, st.executed ++ [mig]⟩ (n + 1)
          q hq_len hsel' hfail' hbefore'
        refine ⟨k, st', ?_⟩
        rw [harith] at heq
        simpa [applyLoop, hft, hok0] using heq

theorem applyLoop_fail_allTrue (m : Migrator) (execOk : String → Bool)
    (checksums : List String) (hfil : ∀ k, m.migrationFilter k = true) :
    ∀ (l : List String) (i : Nat) (st : DBState) (n p : Nat),
    p < l.length →
    (∀ q, q < p → execOk (l.getD q "") = true) →
    execOk (l.getD p "") = false →
    applyLoop m execOk checksums l i st n =
      (n + p,
       ⟨if p = 0 then st.schema else ⟨i + p, checksums.getD (i + p) ""⟩,
        st.executed ++ l.take p⟩,
       some (.executionError (i + p + 1))) := by
  intro l
  induction l with
  | nil => intro i st n p hp; simp at hp
  | cons mig rest ih =>
    intro i st n p hp hok hfail
    cases p with
    | zero =>
      have hf : execOk mig = false := by simpa using hfail
      simp [applyLoop, hfil (i + 1), hf]
    | succ q =>
      have hq_len : q < rest.length := by simpa using Nat.lt_of_succ_lt_succ hp
      have hok0 : execOk mig = true := by simpa using hok 0 (Nat.succ_pos q)
      have hok' : ∀ r, r < q → execOk (rest.getD r "") = true := by
        intro r hr
        simpa using hok (r + 1) (Nat.succ_lt_succ hr)
      have hfail' : execOk (rest.getD q "") = false := by simpa using hfail
      simp only [applyLoop, hfil (i + 1), Bool.true_eq_false, if_false, hok0, if_true]
      rw [ih (i + 1) ⟨⟨i + 1, checksums.getD (i + 1) ""⟩, st.executed ++ [mig]⟩ (n + 1)
        q hq_len hok' hfail']
      by_cases hq : q = 0
      · subst hq; simp
      · rw [if_neg hq]
        dsimp only
        have h1 : i + 1 + q = i + (q + 1) := by omega
        have h2 : n + 1 + q = n + (q + 1) := by omega
        simp [List.take_succ_cons, h1, h2]

theorem applyLoop_none_allTrue (m : Migrator) (execOk : String → Bool)
    (checksums : List String) (hfil : ∀ k, m.migrationFilter k = true) :
    ∀ (l : List String) (i : Nat) (st : DBState) (n k : Nat) (st' : DBState),
    applyLoop m execOk checksums l i st n = (k, st', none) →
    k = n + l.length ∧
    st'.schema = (if l.length = 0 then st.schema
      else ⟨i + l.length, checksums.getD (i + l.length) ""⟩) ∧
    st'.executed = st.executed ++ l := by
  intro l
  induction l with
  | nil =>
    intro i st n k st' h
    simp only [applyLoop, Prod.mk.injEq] at h
    obtain ⟨h1, h2, -⟩ := h
    subst h1; subst h2
    simp
  | cons mig rest ih =>
    intro i st n k st' h
    rw [applyLoop] at h
    rw [if_neg (by simp [hfil (i + 1)])] at h
    by_cases hex : execOk mig = true
    · rw [if_pos hex] at h
      obtain ⟨hk, hsch, hexe⟩ := ih (i + 1)
        ⟨⟨i + 1, checksums.getD (i + 1) ""⟩, st.executed ++ [mig]⟩ (n + 1) k st' h
      refine ⟨by simp at hk ⊢; omega, ?_, by simpa using hexe⟩
      rw [hsch]
      by_cases hq : rest.length = 0
      · simp [hq]
      · rw [if_neg hq, if_neg (by simp)]
        have : i + 1 + rest.length = i + (rest.length + 1) := by omega
        simp [this]
    · rw [if_neg hex] at h
      exact absurd (congrArg (fun x => x.2.2) h) (by simp)

theorem applyLoop_schema_shape (m : Migrator) (execOk : String → Bool)
    (checksums : List String) :
    ∀ (l : List String) (i : Nat) (st : DBState) (n : Nat),
    (applyLoop m execOk checksums l i st n).2.1.schema = st.schema ∨
    ∃ j, i ≤ j ∧ j < i + l.length ∧
      (applyLoop m execOk checksums l i st n).2.1.schema =
        ⟨j + 1, checksums.getD (j + 1) ""⟩ := by
  intro l
  induction l with
  | nil => intro i st n; left; rfl
  | cons mig rest ih =>
    intro i st n
    rw [applyLoop]
    by_cases hfil : m.migrationFilter (i + 1) = false
    · rw [if_pos hfil]
      rcases ih (i + 1) st n with h | ⟨j, hj1, hj2, hj3⟩
      · left; exact h
      · right; exact ⟨j, by omega, by simp only [List.length_cons]; omega, hj3⟩
    · rw [if_neg hfil]
      by_cases hex : execOk mig = true
      · rw [if_pos hex]
        rcases ih (i + 1) ⟨⟨i + 1, checksums.getD (i + 1) ""⟩, st.executed ++ [mig]⟩ (n + 1)
          with h | ⟨j, hj1, hj2, hj3⟩
        · right; exact ⟨i, Nat.le_refl i, by simp only [List.length_cons]; omega, h⟩
        · right; exact ⟨j, by omega, by simp only [List.length_cons]; omega, hj3⟩
      · rw [if_neg hex]
        left; rfl

theorem applyMigrations_eq_loop (m : Migrator) (execOk : String → Bool)
    (st : DBState) (current : Nat) (migs : List String) :
    m.applyMigrations execOk st current migs (m.checksumHistory migs) =
      applyLoop m execOk (m.checksumHistory migs)
        (migs.drop (if m.reapplyAll then 0 else current))
        (if m.reapplyAll then 0 else current) st 0 := by
  unfold Migrator.applyMigrations
  rw [if_neg (by simp [checksumHistory_length])]

theorem ApplyContext_overrun_eq (m : Migrator) (execOk : String → Bool)
    (rbErr : Option String) (migs : List String) (st : DBState)
    (h : migs.length < st.schema.version) :
    m.ApplyContext execOk rbErr migs st =
      (0, st, some (.versionOverrun st.schema.version migs.length)) := by
  simp only [Migrator.ApplyContext]
  rw [if_pos h]

theorem ApplyContext_validate_some (m : Migrator) (execOk : String → Bool)
    (rbErr : Option String) (migs : List String) (st : DBState) (e : MigrateError)
    (hv : st.schema.version ≤ migs.length)
    (hvc : m.validateChecksum st.schema (m.checksumHistory migs) = some e) :
    m.ApplyContext execOk rbErr migs st = (0, st, some e) := by
  simp only [Migrator.ApplyContext]
  rw [if_neg (by omega)]
  simp only [hvc]

theorem ApplyContext_uptodate (m : Migrator) (execOk : String → Bool)
    (rbErr : Option String) (migs : List String) (st : DBState)
    (hre : m.reapplyAll = false)
    (hv : st.schema.version = migs.length)
    (hvc : m.validateChecksum st.schema (m.checksumHistory migs) = none) :
    m.ApplyContext execOk rbErr migs st = (0, st, none) := by
  simp only [Migrator.ApplyContext]
  rw [if_neg (by omega)]
  simp only [hvc]
  rw [if_pos ⟨hre, by omega⟩]

theorem ApplyContext_tx_fail (m : Migrator) (execOk : String → Bool)
    (rbErr : Option String) (migs : List String) (st : DBState)
    (k : Nat) (st₂ : DBState) (e : MigrateError)
    (hTx : m.withTx = true)
    (hv : st.schema.version ≤ migs.length)
    (hvc : m.validateChecksum st.schema (m.checksumHistory migs) = none)
    (hnotup : ¬(m.reapplyAll = false ∧ migs.length ≤ st.schema.version))
    (hfail : m.applyMigrations execOk st st.schema.version migs
      (m.checksumHistory migs) = (k, st₂, some e)) :
    m.ApplyContext execOk rbErr migs st =
      (0, st, some (match rbErr with
        | some msg => MigrateError.rollbackFailed msg e
        | none => e)) := by
  simp only [Migrator.ApplyContext]
  rw [if_neg (by omega)]
  simp only [hvc]
  rw [if_neg hnotup, if_neg (by simp [hTx]), hfail]
  cases rbErr <;> rfl

theorem ApplyContext_nontx_fail (m : Migrator) (execOk : String → Bool)
    (rbErr : Option String) (migs : List String) (st : DBState)
    (k : Nat) (st₂ : DBState) (e : MigrateError)
    (hTx : m.withTx = false)
    (hv : st.schema.version ≤ migs.length)
    (hvc : m.validateChecksum st.schema (m.checksumHistory migs) = none)
    (hnotup : ¬(m.reapplyAll = false ∧ migs.length ≤ st.schema.version))
    (hfail : m.applyMigrations execOk st st.schema.version migs
      (m.checksumHistory migs) = (k, st₂, some e)) :
    m.ApplyContext execOk rbErr migs st = (k, st₂, some (.nonTransactional e)) := by
  simp only [Migrator.ApplyContext]
  rw [if_neg (by omega)]
  simp only [hvc]
  rw [if_neg hnotup, if_pos hTx, hfail]

theorem ApplyContext_run_ok (m : Migrator) (execOk : String → Bool)
    (rbErr : Option String) (migs : List String) (st : DBState)
    (k : Nat) (st₂ : DBState)
    (hv : st.schema.version ≤ migs.length)
    (hvc : m.validateChecksum st.schema (m.checksumHistory migs) = none)
    (hnotup : ¬(m.reapplyAll = false ∧ migs.length ≤ st.schema.version))
    (hok : m.applyMigrations execOk st st.schema.version migs
      (m.checksumHistory migs) = (k, st₂, none)) :
    m.ApplyContext execOk rbErr migs st = (k, st₂, none) := by
  simp only [Migrator.ApplyContext]
  rw [if_neg (by omega)]
  simp only [hvc]
  rw [if_neg hnotup]
  by_cases htx : m.withTx = false
  · rw [if_pos htx, hok]
  · rw [if_neg htx, hok]

theorem validateChecksum_off (m : Migrator) (schema : SchemaVersion)
    (hist : List String) (h : m.withChecksumValidation = false) :
    m.validateChecksum schema hist = none := by
  unfold Migrator.validateChecksum
  rw [if_pos h]

theorem validateChecksum_zero (m : Migrator) (c : String) (hist : List String) :
    m.validateChecksum ⟨0, c⟩ hist = none := by
  unfold Migrator.validateChecksum
  by_cases h : m.withChecksumValidation = false
  · rw [if_pos h]
  · rw [if_neg h, if_pos rfl]

theorem validateChecksum_none_inv (m : Migrator) (schema : SchemaVersion)
    (hist : List String)
    (hval : m.withChecksumValidation = true)
    (hpos : 0 < schema.version)
    (h : m.validateChecksum schema hist = none) :
    schema.checksum = hist.getD schema.version "" := by
  unfold Migrator.validateChecksum at h
  rw [if_neg (by simp [hval]), if_neg (by omega)] at h
  by_cases hc : schema.checksum = hist.getD schema.version ""
  · exact hc
  · rw [if_pos hc] at h
    exact absurd h (by simp)

theorem ApplyContext_none_inv (m : Migrator) (execOk : String → Bool)
    (rbErr : Option String) (migs : List String) (st : DBState)
    (n : Nat) (st' : DBState)
    (hfil : ∀ k, m.migrationFilter k = true)
    (hre : m.reapplyAll = false)
    (h : m.ApplyContext execOk rbErr migs st = (n, st', none)) :
    st'.schema.version = migs.length ∧
    m.validateChecksum st.schema (m.checksumHistory migs) = none ∧
    (st'.schema.checksum = (m.checksumHistory migs).getD migs.length "" ∨
      (st' = st ∧ st.schema.version = migs.length ∧ n = 0)) := by
  by_cases h1 : migs.length < st.schema.version
  · rw [ApplyContext_overrun_eq m execOk rbErr migs st h1] at h
    exact absurd (congrArg (fun x => x.2.2) h) (by simp)
  have h1' : st.schema.version ≤ migs.length := by omega
  cases hvc : m.validateChecksum st.schema (m.checksumHistory migs) with
  | some e =>
    rw [ApplyContext_validate_some m execOk rbErr migs st e h1' hvc] at h
    exact absurd (congrArg (fun x => x.2.2) h) (by simp)
  | none =>
    by_cases h2 : migs.length ≤ st.schema.version
    · rw [ApplyContext_uptodate m execOk rbErr migs st hre (by omega) hvc] at h
      simp only [Prod.mk.injEq] at h
      obtain ⟨hn, hst, -⟩ := h
      subst hst
      exact ⟨by omega, rfl, Or.inr ⟨rfl, by omega, hn.symm⟩⟩
    · have hnotup : ¬(m.reapplyAll = false ∧ migs.length ≤ st.schema.version) := by
        rintro ⟨-, hle⟩; omega
      rcases hrun : m.applyMigrations execOk st st.schema.version migs
        (m.checksumHistory migs) with ⟨k, st₂, err⟩
      cases err with
      | some e =>
        by_cases htx : m.withTx = false
        · rw [ApplyContext_nontx_fail m execOk rbErr migs st k st₂ e htx h1' hvc hnotup hrun] at h
          exact absurd (congrArg (fun x => x.2.2) h) (by simp)
        · have htx' : m.withTx = true := by
            cases hb : m.withTx with
            | false => exact absurd hb htx
            | true => rfl
          rw [ApplyContext_tx_fail m execOk rbErr migs st k st₂ e htx' h1' hvc hnotup hrun] at h
          have := congrArg (fun x => x.2.2) h
          cases rbErr <;> simp at this
      | none =>
        rw [ApplyContext_run_ok m execOk rbErr migs st k st₂ h1' hvc hnotup hrun] at h
        simp only [Prod.mk.injEq] at h
        obtain ⟨hk, hst, -⟩ := h
        subst hst
        rw [applyMigrations_eq_loop, hre] at hrun
        simp only [Bool.false_eq_true, if_false] at hrun
        obtain ⟨-, hsch, -⟩ := applyLoop_none_allTrue m execOk
          (m.checksumHistory migs) hfil
          (migs.drop st.schema.version) st.schema.version st 0 k st₂ hrun
        rw [List.length_drop] at hsch
        rw [if_neg (by omega)] at hsch
        have harith : st.schema.version + (migs.length - st.schema.version) = migs.length := by
          omega
        rw [harith] at hsch
        exact ⟨by rw [hsch], rfl, Or.inl (by rw [hsch])⟩

theorem ApplyContext_schema_shape (m : Migrator) (execOk : String → Bool)
    (rbErr : Option String) (migs : List String) (st : DBState) :
    (m.ApplyContext execOk rbErr migs st).2.1.schema = st.schema ∨
    ∃ j, j < migs.length ∧
      (m.ApplyContext execOk rbErr migs st).2.1.schema =
        ⟨j + 1, (m.checksumHistory migs).getD (j + 1) ""⟩ := by
  by_cases h1 : migs.length < st.schema.version
  · rw [ApplyContext_overrun_eq m execOk rbErr migs st h1]; left; rfl
  have h1' : st.schema.version ≤ migs.length := by omega
  cases hvc : m.validateChecksum st.schema (m.checksumHistory migs) with
  | some e =>
    rw [ApplyContext_validate_some m execOk rbErr migs st e h1' hvc]; left; rfl
  | none =>
    by_cases h2 : m.reapplyAll = false ∧ migs.length ≤ st.schema.version
    · rw [ApplyContext_uptodate m execOk rbErr migs st h2.1 (by omega) hvc]; left; rfl
    · rcases hrun : m.applyMigrations execOk st st.schema.version migs
        (m.checksumHistory migs) with ⟨k, st₂, err⟩
      have hstart : (if m.reapplyAll then 0 else st.schema.version) ≤ migs.length := by
        by_cases hra : m.reapplyAll = true
        · simp [hra]
        · have : m.reapplyAll = false := by
            cases hb : m.reapplyAll with
            | false => rfl
            | true => exact absurd hb hra
          simp [this]; omega
      have hshape := applyLoop_schema_shape m execOk (m.checksumHistory migs)
        (migs.drop (if m.reapplyAll then 0 else st.schema.version))
        (if m.reapplyAll then 0 else st.schema.version) st 0
      rw [← applyMigrations_eq_loop, hrun] at hshape
      have hsh : st₂.schema = st.schema ∨
          ∃ j, j < migs.length ∧
            st₂.schema = ⟨j + 1, (m.checksumHistory migs).getD (j + 1) ""⟩ := by
        rcases hshape with hl | ⟨j, hj1, hj2, hj3⟩
        · left; exact hl
        · right
          refine ⟨j, ?_, hj3⟩
          rw [List.length_drop] at hj2
          omega
      cases err with
      | some e =>
        by_cases htx : m.withTx = false
        · rw [ApplyContext_nontx_fail m execOk rbErr migs st k st₂ e htx h1' hvc h2 hrun]
          exact hsh
        · have htx' : m.withTx = true := by
            cases hb : m.withTx with
            | false => exact absurd hb htx
            | true => rfl
          rw [ApplyContext_tx_fail m execOk rbErr migs st k st₂ e htx' h1' hvc h2 hrun]
          left; rfl
      | none =>
        rw [ApplyContext_run_ok m execOk rbErr migs st k st₂ h1' hvc h2 hrun]
        exact hsh

theorem validateChecksum_of_eq (m : Migrator) (schema : SchemaVersion)
    (hist : List String) (h : schema.checksum = hist.getD schema.version "") :
    m.validateChecksum schema hist = none := by
  unfold Migrator.validateChecksum
  by_cases hval : m.withChecksumValidation = false
  · rw [if_pos hval]
  · rw [if_neg hval]
    by_cases hz : schema.version = 0
    · rw [if_pos hz]
    · rw [if_neg hz, if_neg (fun hne => hne h)]

/-! ### Concrete digest evaluations

The SHA-1 values below were checked against the checksums hard-coded in the
repository's own tests.  Each digest is established once, in two steps (the
word-level computation, then the hex encoding), so later proofs can rewrite
with the literal instead of re-evaluating the hash. -/

theorem sha1Words_empty : sha1Words (stringToBytes (normalize "")) =
    (3661210606, 1584089869, 844480495, 2506102928, 2950170377) := by decide

theorem hash_empty :
    normalizedSha1 "" = "da39a3ee5e6b4b0d3255bfef95601890afd80709" := by
  unfold normalizedSha1 sha1Hex
  rw [sha1Words_empty]
  decide

theorem sha1Words_a : sha1Words (stringToBytes (normalize "a")) =
    (2264392759, 4205160444, 3780976092, 3119180522, 930506680) := by decide

theorem hash_a :
    normalizedSha1 "a" = "86f7e437faa5a7fce15d1ddcb9eaeaea377667b8" := by
  unfold normalizedSha1 sha1Hex
  rw [sha1Words_a]
  decide

theorem sha1Words_chain_a1 :
    sha1Words (stringToBytes (normalize ("" ++ "86f7e437faa5a7fce15d1ddcb9eaeaea377667b8"))) =
    (4007923984, 2585956422, 357288407, 1382394316, 2990160540) := by decide

theorem hash_chain_a1 :
    normalizedSha1 ("" ++ "86f7e437faa5a7fce15d1ddcb9eaeaea377667b8") =
      "eee411109a229046154bc9d75265a9ccb23a3a9c" := by
  unfold normalizedSha1 sha1Hex
  rw [sha1Words_chain_a1]
  decide

theorem chain_a : Migrator.new.checksumHistory ["a"] =
    ["", "eee411109a229046154bc9d75265a9ccb23a3a9c"] := by
  have hcs : (Migrator.new.checksum : String → String) = normalizedSha1 := rfl
  simp only [Migrator.checksumHistory, checksumChainFrom, hcs]
  rw [hash_a, hash_chain_a1]

theorem sha1Words_bigA : sha1Words (stringToBytes (normalize "A")) =
    (1842171106, 1032381166, 2506668628, 1811971171, 3641908251) := by decide

theorem hash_bigA :
    normalizedSha1 "A" = "6dcd4ce23d88e2ee9568ba546c007c63d9131c1b" := by
  unfold normalizedSha1 sha1Hex
  rw [sha1Words_bigA]
  decide

theorem sha1Words_chain_AB1 :
    sha1Words (stringToBytes (normalize ("" ++ "6dcd4ce23d88e2ee9568ba546c007c63d9131c1b"))) =
    (3177206802, 322644145, 207595428, 1607346655, 1740737495) := by decide

theorem hash_chain_AB1 :
    normalizedSha1 ("" ++ "6dcd4ce23d88e2ee9568ba546c007c63d9131c1b") =
      "bd605412133b28b10c5fa7a45fce29df67c18bd7" := by
  unfold normalizedSha1 sha1Hex
  rw [sha1Words_chain_AB1]
  decide

theorem sha1Words_bigB : sha1Words (stringToBytes (normalize "B")) =
    (2924423197, 4121284863, 1017996145, 4151139369, 3067696108) := by decide

theorem hash_bigB :
    normalizedSha1 "B" = "ae4f281df5a5d0ff3cad6371f76d5c29b6d953ec" := by
  unfold normalizedSha1 sha1Hex
  rw [sha1Words_bigB]
  decide

theorem sha1Words_chain_AB2 :
    sha1Words (stringToBytes (normalize
      ("bd605412133b28b10c5fa7a45fce29df67c18bd7" ++
       "ae4f281df5a5d0ff3cad6371f76d5c29b6d953ec"))) =
    (2906524135, 4006207964, 2058146970, 694354751, 109036632) := by decide

theorem hash_chain_AB2 :
    normalizedSha1 ("bd605412133b28b10c5fa7a45fce29df67c18bd7" ++
        "ae4f281df5a5d0ff3cad6371f76d5c29b6d953ec") =
      "ad3e09e7eec9e1dc7aacd49a2963033f067fc458" := by
  unfold normalizedSha1 sha1Hex
  rw [sha1Words_chain_AB2]
  decide

theorem chain_AB : Migrator.new.checksumHistory ["A", "B"] =
    ["", "bd605412133b28b10c5fa7a45fce29df67c18bd7",
     "ad3e09e7eec9e1dc7aacd49a2963033f067fc458"] := by
  have hcs : (Migrator.new.checksum : String → String) = normalizedSha1 := rfl
  simp only [Migrator.checksumHistory, checksumChainFrom, hcs]
  rw [hash_bigA, hash_chain_AB1, hash_bigB, hash_chain_AB2]

/-- Shared concrete run: on a fresh database with scripts `["A", "B"]` and a
filter excluding migration number 1, the call applies exactly `B` and
persists version 2 with `chain[2]`. -/
theorem filter_example_first_call :
    (WithFilter (fun k => k != 1) Migrator.new).ApplyContext (fun _ => true) none
        ["A", "B"] freshDB =
      (1, ⟨⟨2, "ad3e09e7eec9e1dc7aacd49a2963033f067fc458"⟩, ["B"]⟩, none) := by
  have hchain' : (WithFilter (fun k => k != 1) Migrator.new).checksumHistory
      ["A", "B"] = Migrator.new.checksumHistory ["A", "B"] := rfl
  have hok : (WithFilter (fun k => k != 1) Migrator.new).applyMigrations
      (fun _ => true) freshDB freshDB.schema.version ["A", "B"]
      ((WithFilter (fun k => k != 1) Migrator.new).checksumHistory ["A", "B"]) =
      (1, ⟨⟨2, "ad3e09e7eec9e1dc7aacd49a2963033f067fc458"⟩, ["B"]⟩, none) := by
    rw [applyMigrations_eq_loop, hchain', chain_AB]
    decide
  exact ApplyContext_run_ok (WithFilter (fun k => k != 1) Migrator.new)
    (fun _ => true) none ["A", "B"] freshDB 1
    ⟨⟨2, "ad3e09e7eec9e1dc7aacd49a2963033f067fc458"⟩, ["B"]⟩
    (by decide) (validateChecksum_zero _ "" _) (by decide) hok

/-! ### Claim theorems -/

/-- C1: in transactional mode, when the apply loop's first selected failing
script is at 0-based index `p` (all selected scripts before it succeed),
`ApplyContext` returns an error, reports zero scripts applied, and leaves the
database state — in particular the persisted schema version — exactly as it
was before the call: no version-row write from this call survives. -/
theorem C1_tx_failure_atomic (m : Migrator) (execOk : String → Bool)
    (rbErr : Option String) (migs : List String) (st : DBState) (p : Nat)
    (hTx : m.withTx = true)
    (hv : st.schema.version ≤ migs.length)
    (hvc : m.validateChecksum st.schema (m.checksumHistory migs) = none)
    (hnotup : ¬(m.reapplyAll = false ∧ migs.length ≤ st.schema.version))
    (hge : (if m.reapplyAll then 0 else st.schema.version) ≤ p)
    (hlt : p < migs.length)
    (hsel : m.migrationFilter (p + 1) = true)
    (hfail : execOk (migs.getD p "") = false)
    (hbefore : ∀ q, (if m.reapplyAll then 0 else st.schema.version) ≤ q → q < p →
      m.migrationFilter (q + 1) = true → execOk (migs.getD q "") = true) :
    m.ApplyContext execOk rbErr migs st =
      (0, st, some (match rbErr with
        | some msg => MigrateError.rollbackFailed msg (.executionError (p + 1))
        | none => .executionError (p + 1))) := by
  set start := if m.reapplyAll then 0 else st.schema.version with hstart
  obtain ⟨k, st₂, heq⟩ := applyLoop_first_fail m execOk (m.checksumHistory migs)
    (migs.drop start) start st 0 (p - start)
    (by rw [List.length_drop]; omega)
    (by rw [show start + (p - start) + 1 = p + 1 by omega]; exact hsel)
    (by rw [getD_drop, show start + (p - start) = p by omega]; exact hfail)
    (by
      intro q hq hfq
      rw [getD_drop]
      exact hbefore (start + q) (by omega) (by omega) hfq)
  rw [show start + (p - start) + 1 = p + 1 by omega] at heq
  have hfail' : m.applyMigrations execOk st st.schema.version migs
      (m.checksumHistory migs) = (k, st₂, some (.executionError (p + 1))) := by
    rw [applyMigrations_eq_loop, ← hstart]
    exact heq
  exact ApplyContext_tx_fail m execOk rbErr migs st k st₂ _ hTx hv hvc hnotup hfail'

theorem C1_tx_failure_atomic_witness :
    Migrator.new.ApplyContext (fun s => s == "A") none ["A", "B"] freshDB =
      (0, freshDB, some (.executionError 2)) :=
  C1_tx_failure_atomic Migrator.new (fun s => s == "A") none ["A", "B"] freshDB 1
    rfl (by decide) (by decide) (by decide) (by decide) (by decide) rfl (by decide)
    (by
      intro q h1 h2 h3
      have hq : q = 0 := by omega
      subst hq
      decide)

/-- C2 counterexample: the first element of the checksum chain is the empty
string literal (the code seeds the history with `""`), not the digest of the
empty string: even for the empty script list, `chain[0]` differs from the
default digest of `""`. -/
theorem C2_chain_head_counterexample :
    (Migrator.new.checksumHistory []).getD 0 "x" ≠ Migrator.new.checksum "" := by
  have hcs : (Migrator.new.checksum : String → String) = normalizedSha1 := rfl
  rw [hcs, hash_empty]
  decide

/-- C2 (amended): for every migrator and ordered list of N script texts, the
checksum chain has N+1 elements, `chain[0]` is the empty string (not a
digest), and for every `i` in `1..N`,
`chain[i] = digest(chain[i-1] ++ digest(script[i-1]))`. -/
theorem C2_chain_structure (m : Migrator) (migs : List String) :
    (m.checksumHistory migs).length = migs.length + 1 ∧
    (m.checksumHistory migs).getD 0 "" = "" ∧
    (∀ i, i < migs.length →
      (m.checksumHistory migs).getD (i + 1) "" =
        m.checksum ((m.checksumHistory migs).getD i "" ++
          m.checksum (migs.getD i ""))) := by
  refine ⟨checksumHistory_length m migs, rfl, ?_⟩
  intro i hi
  exact chain_getD_succ m.checksum "" migs i hi

theorem C2_chain_structure_witness :
    (Migrator.new.checksumHistory ["a", "b"]).getD 2 "" =
      Migrator.new.checksum ((Migrator.new.checksumHistory ["a", "b"]).getD 1 "" ++
        Migrator.new.checksum "b") :=
  (C2_chain_structure Migrator.new ["a", "b"]).2.2 1 (by decide)

/-- C3: with checksum validation enabled and a stored version in
`1..len(scripts)`, a stored checksum differing from `chain[storedVersion]`
makes the call fail with an integrity error carrying both checksums, state
unchanged; with validation disabled, the drift scenario (a fully-applied
list whose scripts were edited) succeeds without error and state unchanged;
and a stored version of 0 is never compared. -/
theorem C3_checksum_validation :
    (∀ (m : Migrator) (execOk : String → Bool) (rbErr : Option String)
        (migs : List String) (st : DBState),
      m.withChecksumValidation = true →
      0 < st.schema.version → st.schema.version ≤ migs.length →
      st.schema.checksum ≠ (m.checksumHistory migs).getD st.schema.version "" →
      m.ApplyContext execOk rbErr migs st =
        (0, st, some (.integrityError
          ((m.checksumHistory migs).getD st.schema.version "") st.schema.checksum))) ∧
    (∀ (m : Migrator) (execOk : String → Bool) (rbErr : Option String)
        (migs : List String) (st : DBState),
      m.withChecksumValidation = false →
      m.reapplyAll = false →
      st.schema.version = migs.length →
      m.ApplyContext execOk rbErr migs st = (0, st, none)) ∧
    (∀ (m : Migrator) (c : String) (hist : List String),
      m.validateChecksum ⟨0, c⟩ hist = none) := by
  refine ⟨?_, ?_, ?_⟩
  · intro m execOk rbErr migs st hval hpos hv hmis
    have hvc : m.validateChecksum st.schema (m.checksumHistory migs) =
        some (.integrityError ((m.checksumHistory migs).getD st.schema.version "")
          st.schema.checksum) := by
      unfold Migrator.validateChecksum
      rw [if_neg (by simp [hval]), if_neg (by omega), if_pos hmis]
    exact ApplyContext_validate_some m execOk rbErr migs st _ hv hvc
  · intro m execOk rbErr migs st hval hre hv
    exact ApplyContext_uptodate m execOk rbErr migs st hre hv
      (validateChecksum_off m st.schema _ hval)
  · intro m c hist
    exact validateChecksum_zero m c hist

theorem C3_checksum_validation_witness :
    Migrator.new.ApplyContext (fun _ => true) none ["a"] ⟨⟨1, "bad"⟩, ["a"]⟩ =
      (0, ⟨⟨1, "bad"⟩, ["a"]⟩, some (.integrityError
        ((Migrator.new.checksumHistory ["a"]).getD 1 "") "bad")) ∧
    (WithChecksumValidation false Migrator.new).ApplyContext (fun _ => true) none
      ["a"] ⟨⟨1, "bad"⟩, ["a"]⟩ = (0, ⟨⟨1, "bad"⟩, ["a"]⟩, none) ∧
    Migrator.new.validateChecksum ⟨0, "z"⟩ [] = none :=
  ⟨C3_checksum_validation.1 Migrator.new (fun _ => true) none ["a"]
      ⟨⟨1, "bad"⟩, ["a"]⟩ rfl (by decide) (by decide) (by rw [chain_a]; decide),
   C3_checksum_validation.2.1 (WithChecksumValidation false Migrator.new)
      (fun _ => true) none ["a"] ⟨⟨1, "bad"⟩, ["a"]⟩ rfl rfl (by decide),
   C3_checksum_validation.2.2 Migrator.new "z" []⟩

/-- C4 counterexample: with full-reapply off and a stored version equal to
the script count, `ApplyContext` is NOT unconditionally `(0, nil)`: under the
default configuration a drifted stored checksum makes the same call return an
integrity error instead. -/
theorem C4_uptodate_counterexample :
    Migrator.new.ApplyContext (fun _ => true) none ["a"] ⟨⟨1, "bad"⟩, []⟩ ≠
      (0, ⟨⟨1, "bad"⟩, []⟩, none) := by
  have hvc : Migrator.new.validateChecksum (⟨1, "bad"⟩ : SchemaVersion)
      (Migrator.new.checksumHistory ["a"]) =
      some (.integrityError ((Migrator.new.checksumHistory ["a"]).getD 1 "") "bad") := by
    unfold Migrator.validateChecksum
    rw [if_neg (by decide), if_neg (by decide), if_pos (by rw [chain_a]; decide)]
  rw [ApplyContext_validate_some Migrator.new (fun _ => true) none ["a"]
    ⟨⟨1, "bad"⟩, []⟩ _ (by decide) hvc]
  simp

/-- C4 (amended): when full-reapply is off, the stored version equals the
script count, and the checksum-validation step passes, `ApplyContext` returns
`(0, nil)` with the state untouched; consequently, with an accept-all filter,
if one call succeeds then immediately repeating it with the same list applies
zero scripts and leaves the persisted state unchanged. -/
theorem C4_idempotent :
    (∀ (m : Migrator) (execOk : String → Bool) (rbErr : Option String)
        (migs : List String) (st : DBState),
      m.reapplyAll = false →
      st.schema.version = migs.length →
      m.validateChecksum st.schema (m.checksumHistory migs) = none →
      m.ApplyContext execOk rbErr migs st = (0, st, none)) ∧
    (∀ (m : Migrator) (execOk : String → Bool) (rbErr : Option String)
        (migs : List String) (st : DBState) (n : Nat) (st' : DBState),
      (∀ k, m.migrationFilter k = true) →
      m.reapplyAll = false →
      m.ApplyContext execOk rbErr migs st = (n, st', none) →
      m.ApplyContext execOk rbErr migs st' = (0, st', none)) := by
  refine ⟨?_, ?_⟩
  · intro m execOk rbErr migs st hre hv hvc
    exact ApplyContext_uptodate m execOk rbErr migs st hre hv hvc
  · intro m execOk rbErr migs st n st' hfil hre h
    obtain ⟨hver, hvc, hcs⟩ := ApplyContext_none_inv m execOk rbErr migs st n st' hfil hre h
    refine ApplyContext_uptodate m execOk rbErr migs st' hre hver ?_
    rcases hcs with hcs | ⟨hst, hv0, -⟩
    · exact validateChecksum_of_eq m st'.schema _ (by rw [hver]; exact hcs)
    · rw [hst]; exact hvc

theorem C4_idempotent_witness :
    (WithChecksum (fun s => s) Migrator.new).ApplyContext (fun _ => true) none
      ["a"] ⟨⟨1, "a"⟩, []⟩ = (0, ⟨⟨1, "a"⟩, []⟩, none) ∧
    (WithChecksum (fun s => s) Migrator.new).ApplyContext (fun _ => true) none
      ["a"] ⟨⟨1, "a"⟩, ["a"]⟩ = (0, ⟨⟨1, "a"⟩, ["a"]⟩, none) :=
  ⟨C4_idempotent.1 (WithChecksum (fun s => s) Migrator.new) (fun _ => true) none
      ["a"] ⟨⟨1, "a"⟩, []⟩ rfl (by decide) (by decide),
   C4_idempotent.2 (WithChecksum (fun s => s) Migrator.new) (fun _ => true) none
      ["a"] freshDB 1 ⟨⟨1, "a"⟩, ["a"]⟩ (fun _ => rfl) rfl (by decide)⟩

/-- C5: with the default configuration shape (accept-all filter, validation
on, transactions on, full reapply off) and a well-formed starting row (a
version-0 row carries the empty checksum, as the dialect initializes it), a
successful call leaves version = len(scripts) and checksum = chain[len]; and
for every configuration and outcome, the final version row is either the
original one or `(i+1, chain[i+1])` for some script index `i` — every
version-row write stores exactly that pair. -/
theorem C5_version_checksum_invariant :
    (∀ (m : Migrator) (execOk : String → Bool) (rbErr : Option String)
        (migs : List String) (st : DBState) (n : Nat) (st' : DBState),
      (∀ k, m.migrationFilter k = true) →
      m.withChecksumValidation = true →
      m.reapplyAll = false →
      (st.schema.version = 0 → st.schema.checksum = "") →
      m.ApplyContext execOk rbErr migs st = (n, st', none) →
      st'.schema.version = migs.length ∧
      st'.schema.checksum = (m.checksumHistory migs).getD migs.length "") ∧
    (∀ (m : Migrator) (execOk : String → Bool) (rbErr : Option String)
        (migs : List String) (st : DBState),
      (m.ApplyContext execOk rbErr migs st).2.1.schema = st.schema ∨
      ∃ j, j < migs.length ∧
        (m.ApplyContext execOk rbErr migs st).2.1.schema =
          ⟨j + 1, (m.checksumHistory migs).getD (j + 1) ""⟩) := by
  constructor
  · intro m execOk rbErr migs st n st' hfil hval hre hwf h
    obtain ⟨hver, hvc, hcs⟩ := ApplyContext_none_inv m execOk rbErr migs st n st' hfil hre h
    refine ⟨hver, ?_⟩
    rcases hcs with hcs | ⟨hst, hv0, -⟩
    · exact hcs
    · subst hst
      by_cases hz : st'.schema.version = 0
      · rw [hwf hz, ← hv0, hz]; rfl
      · have hceq := validateChecksum_none_inv m st'.schema (m.checksumHistory migs)
          hval (by omega) hvc
        rw [hceq, hv0]
  · intro m execOk rbErr migs st
    exact ApplyContext_schema_shape m execOk rbErr migs st

theorem C5_version_checksum_invariant_witness :
    (⟨⟨1, "a"⟩, ["a"]⟩ : DBState).schema.version = (["a"] : List String).length ∧
    (⟨⟨1, "a"⟩, ["a"]⟩ : DBState).schema.checksum =
      ((WithChecksum (fun s => s) Migrator.new).checksumHistory ["a"]).getD
        (["a"] : List String).length "" :=
  C5_version_checksum_invariant.1 (WithChecksum (fun s => s) Migrator.new)
    (fun _ => true) none ["a"] freshDB 1 ⟨⟨1, "a"⟩, ["a"]⟩
    (fun _ => rfl) rfl rfl (fun _ => rfl) (by decide)

/-- C6 counterexample: on a fresh database with scripts `["A", "B"]` and an
inclusion predicate excluding migration number 1, a single call does NOT
leave the persisted version at 0 with nothing applied: it executes `B`,
reports 1 script applied, and persists version 2. -/
theorem C6_filter_counterexample :
    ((WithFilter (fun k => k != 1) Migrator.new).ApplyContext
        (fun _ => true) none ["A", "B"] freshDB).2.1.schema.version = 2 ∧
    ((WithFilter (fun k => k != 1) Migrator.new).ApplyContext
        (fun _ => true) none ["A", "B"] freshDB).1 = 1 := by
  rw [filter_example_first_call]
  exact ⟨rfl, rfl⟩

/-- C6 (amended): with scripts `["A", "B"]` on a fresh database and a filter
excluding migration number 1, one call skips `A` but executes `B`, reporting
1 applied and persisting version 2 with checksum `chain[2]`; a subsequent
unfiltered call on the same list is then a no-op (0 applied, version still
2), so the skipped script `A` is never executed. -/
theorem C6_filter_skips_permanently :
    (WithFilter (fun k => k != 1) Migrator.new).ApplyContext
        (fun _ => true) none ["A", "B"] freshDB =
      (1, ⟨⟨2, (Migrator.new.checksumHistory ["A", "B"]).getD 2 ""⟩, ["B"]⟩, none) ∧
    Migrator.new.ApplyContext (fun _ => true) none ["A", "B"]
        ⟨⟨2, (Migrator.new.checksumHistory ["A", "B"]).getD 2 ""⟩, ["B"]⟩ =
      (0, ⟨⟨2, (Migrator.new.checksumHistory ["A", "B"]).getD 2 ""⟩, ["B"]⟩, none) := by
  have hg2 : (Migrator.new.checksumHistory ["A", "B"]).getD 2 "" =
      "ad3e09e7eec9e1dc7aacd49a2963033f067fc458" := by rw [chain_AB]; rfl
  rw [hg2]
  refine ⟨filter_example_first_call, ?_⟩
  exact ApplyContext_uptodate Migrator.new (fun _ => true) none ["A", "B"]
    ⟨⟨2, "ad3e09e7eec9e1dc7aacd49a2963033f067fc458"⟩, ["B"]⟩ rfl rfl
    (validateChecksum_of_eq Migrator.new _ _ (by rw [chain_AB]; rfl))

/-- C7: if the stored schema version strictly exceeds the number of supplied
scripts, `ApplyContext` fails with the version-overrun error carrying both
numbers, reports zero applied, and leaves the state untouched — for every
digest, filter, execution oracle, and mode. -/
theorem C7_version_overrun (m : Migrator) (execOk : String → Bool)
    (rbErr : Option String) (migs : List String) (st : DBState)
    (h : migs.length < st.schema.version) :
    m.ApplyContext execOk rbErr migs st =
      (0, st, some (.versionOverrun st.schema.version migs.length)) :=
  ApplyContext_overrun_eq m execOk rbErr migs st h

theorem C7_version_overrun_witness :
    Migrator.new.ApplyContext (fun _ => true) none ["a"] ⟨⟨3, "c"⟩, []⟩ =
      (0, ⟨⟨3, "c"⟩, []⟩, some (.versionOverrun 3 1)) :=
  C7_version_overrun Migrator.new (fun _ => true) none ["a"] ⟨⟨3, "c"⟩, []⟩
    (by decide)

/-- C8: the default digest hashes whitespace-normalized text: any two scripts
equal after removing every whitespace character have the same `normalizedSha1`
digest, and two script lists pointwise equal after whitespace removal yield
identical checksum chains under the default digest, so formatting-only edits
to an applied script never change the chain and never trigger a mismatch. -/
theorem C8_whitespace_insensitive :
    (∀ s t : String, normalize s = normalize t →
      normalizedSha1 s = normalizedSha1 t) ∧
    (∀ ss ts : List String, ss.length = ts.length →
      (∀ i, i < ss.length → normalize (ss.getD i "") = normalize (ts.getD i "")) →
      Migrator.new.checksumHistory ss = Migrator.new.checksumHistory ts) := by
  have hdig : ∀ s t : String, normalize s = normalize t →
      normalizedSha1 s = normalizedSha1 t := by
    intro s t h
    unfold normalizedSha1
    rw [h]
  refine ⟨hdig, ?_⟩
  intro ss ts hlen hnorm
  unfold Migrator.checksumHistory
  exact congrArg (List.cons "")
    (chainFrom_congr Migrator.new.checksum "" ss ts hlen
      (fun i hi => hdig _ _ (hnorm i hi)))

theorem C8_whitespace_insensitive_witness :
    normalizedSha1 "a b" = normalizedSha1 "ab" ∧
    Migrator.new.checksumHistory ["a b"] = Migrator.new.checksumHistory ["ab"] :=
  ⟨C8_whitespace_insensitive.1 "a b" "ab" (by decide),
   C8_whitespace_insensitive.2 ["a b"] ["ab"] rfl (by
     intro i hi
     have h0 : i = 0 := by simp at hi; omega
     subst h0
     decide)⟩

/-- C9: in transactional mode, when the batch fails with error `e` and the
subsequent rollback itself fails with message `msg`, the error returned by
`ApplyContext` is `rollbackFailed msg e`: it carries both the rollback
failure and the original execution error; neither is dropped. -/
theorem C9_rollback_reports_both (m : Migrator) (execOk : String → Bool)
    (msg : String) (migs : List String) (st : DBState)
    (k : Nat) (st₂ : DBState) (e : MigrateError)
    (hTx : m.withTx = true)
    (hv : st.schema.version ≤ migs.length)
    (hvc : m.validateChecksum st.schema (m.checksumHistory migs) = none)
    (hnotup : ¬(m.reapplyAll = false ∧ migs.length ≤ st.schema.version))
    (hfail : m.applyMigrations execOk st st.schema.version migs
      (m.checksumHistory migs) = (k, st₂, some e)) :
    m.ApplyContext execOk (some msg) migs st =
      (0, st, some (.rollbackFailed msg e)) :=
  ApplyContext_tx_fail m execOk (some msg) migs st k st₂ e hTx hv hvc hnotup hfail

theorem C9_rollback_reports_both_witness :
    Migrator.new.ApplyContext (fun _ => false) (some "disk error") ["A"] freshDB =
      (0, freshDB, some (.rollbackFailed "disk error" (.executionError 1))) :=
  C9_rollback_reports_both Migrator.new (fun _ => false) "disk error" ["A"] freshDB
    0 freshDB (.executionError 1) rfl (by decide) (by decide) (by decide) (by decide)

/-- C10: in non-transactional mode with the accept-all filter, when the
script at 0-based index `p` fails after every earlier pending script
succeeded, `ApplyContext` returns the count of scripts applied in this call
(`p - storedVersion`, not clamped to 0) with the wrapped execution error, and
the state keeps every version-row write made for the earlier scripts: the
stored version is `p` — the last successful script — with checksum
`chain[p]`, and the executed log grew by exactly those scripts. -/
theorem C10_nontx_keeps_progress (m : Migrator) (execOk : String → Bool)
    (rbErr : Option String) (migs : List String) (st : DBState) (p : Nat)
    (hTx : m.withTx = false)
    (hfil : ∀ k, m.migrationFilter k = true)
    (hre : m.reapplyAll = false)
    (hvc : m.validateChecksum st.schema (m.checksumHistory migs) = none)
    (hge : st.schema.version ≤ p) (hlt : p < migs.length)
    (hok : ∀ q, st.schema.version ≤ q → q < p → execOk (migs.getD q "") = true)
    (hfail : execOk (migs.getD p "") = false) :
    m.ApplyContext execOk rbErr migs st =
      (p - st.schema.version,
       ⟨if p = st.schema.version then st.schema
         else ⟨p, (m.checksumHistory migs).getD p ""⟩,
        st.executed ++ (migs.drop st.schema.version).take (p - st.schema.version)⟩,
       some (.nonTransactional (.executionError (p + 1)))) := by
  have hv : st.schema.version ≤ migs.length := by omega
  have hnotup : ¬(m.reapplyAll = false ∧ migs.length ≤ st.schema.version) := by
    rintro ⟨-, hle⟩; omega
  have hloop := applyLoop_fail_allTrue m execOk (m.checksumHistory migs) hfil
    (migs.drop st.schema.version) st.schema.version st 0 (p - st.schema.version)
    (by rw [List.length_drop]; omega)
    (by
      intro q hq
      rw [getD_drop]
      exact hok (st.schema.version + q) (by omega) (by omega))
    (by
      rw [getD_drop, show st.schema.version + (p - st.schema.version) = p by omega]
      exact hfail)
  rw [show st.schema.version + (p - st.schema.version) = p by omega] at hloop
  rw [Nat.zero_add] at hloop
  have hfail' : m.applyMigrations execOk st st.schema.version migs
      (m.checksumHistory migs) =
      (p - st.schema.version,
       ⟨if p - st.schema.version = 0 then st.schema
         else ⟨p, (m.checksumHistory migs).getD p ""⟩,
        st.executed ++ (migs.drop st.schema.version).take (p - st.schema.version)⟩,
       some (.executionError (p + 1))) := by
    rw [applyMigrations_eq_loop, hre]
    simp only [Bool.false_eq_true, if_false]
    exact hloop
  have hiff : (if p - st.schema.version = 0 then st.schema
      else (⟨p, (m.checksumHistory migs).getD p ""⟩ : SchemaVersion)) =
      (if p = st.schema.version then st.schema
      else ⟨p, (m.checksumHistory migs).getD p ""⟩) := by
    by_cases hpz : p = st.schema.version
    · rw [if_pos hpz, if_pos (by omega)]
    · rw [if_neg hpz, if_neg (by omega)]
  rw [ApplyContext_nontx_fail m execOk rbErr migs st (p - st.schema.version) _
    (.executionError (p + 1)) hTx hv hvc hnotup hfail', hiff]

theorem C10_nontx_keeps_progress_witness :
    (WithTransaction false (WithChecksum (fun s => s) Migrator.new)).ApplyContext
        (fun s => s == "A") none ["A", "B"] freshDB =
      (1, ⟨⟨1, "A"⟩, ["A"]⟩, some (.nonTransactional (.executionError 2))) :=
  C10_nontx_keeps_progress
    (WithTransaction false (WithChecksum (fun s => s) Migrator.new))
    (fun s => s == "A") none ["A", "B"] freshDB 1 rfl (fun _ => rfl) rfl
    (by decide) (by decide) (by decide)
    (by
      intro q h1 h2
      have hq : q = 0 := by omega
      subst hq
      decide)
    (by decide)

end Migrate
